import Mathlib

/-!
Verification of the compressed-block framing layer
(`src/kudu/cfile/block_compression.cc`).

Bytes are modelled as natural numbers; a stored byte is always reduced
modulo 256 where the C++ type `uint8_t` forces it.  A `Slice` is a
`List Nat`.  The two fallible operations return a kudu-style `Status`
together with the final value of their out-parameter `*result`, which the
C++ code assigns only on the success path.
-/

namespace Kudu

/-- Header length constant `CompressedBlockBuilder::kHeaderReservedLength`. -/
def kHeaderReservedLength : Nat := 8

/-- The numeric payload of the three `Status::Corruption` sites in
`CompressedBlockDecoder::Uncompress`, carrying exactly the integers the
source passes to `StringPrintf` at each site. -/
inductive CorruptionKind where
  /-- line 70: `data size %lu ... required %lu` with `data.size(), kHeaderReservedLength`. -/
  | shortData (dataSize required : Nat)
  /-- line 82: `compressed size %u does not match remaining length in buffer %lu`
      with `compressed_size, data.size() - kHeaderReservedLength`. -/
  | lengthMismatch (compressedSize remaining : Nat)
  /-- line 90: the format text reads `uncompressed size %u overflows the maximum
      length %lu`, and the arguments the source passes are
      `compressed_size, uncompressed_size_limit_` (the first argument is the
      compressed size field, not the uncompressed one). -/
  | sizeOverflow (firstArg limit : Nat)
  deriving DecidableEq, Repr

/-- Return status of the two operations.  `invalidArgument` carries the two
integers of the `StringPrintf` at line 41 (`estimated max size %lu ... the
expected %lu`); `corruption` carries the numeric context and the
`ToDebugString(50)` excerpt; a failure of the underlying codec is
propagated as `codecError`. -/
inductive Status where
  | ok
  | invalidArgument (estimated expected : Nat)
  | corruption (kind : CorruptionKind) (excerpt : List Nat)
  | codecError
  deriving DecidableEq, Repr

/-- The bytes shown by `Slice::ToDebugString(50)`: at most the first
`maxLen` bytes of the slice (the string escaping is not modelled, only
which bytes appear). -/
def toDebugExcerpt (data : List Nat) (maxLen : Nat) : List Nat :=
  data.take maxLen

/-- Models `InlineEncodeFixed32`: little-endian encoding of the low 32 bits of
`v` (the C++ call converts `size_t` to `uint32_t`). -/
def encodeFixed32 (v : Nat) : List Nat :=
  [v % 256, v / 256 % 256, v / 65536 % 256, v / 16777216 % 256]

/-- Models `DecodeFixed32` reading four bytes at offset `off`; each stored byte
is a `uint8_t`, hence the reduction modulo 256. -/
def decodeFixed32 (data : List Nat) (off : Nat) : Nat :=
  data.getD off 0 % 256
    + data.getD (off + 1) 0 % 256 * 256
    + data.getD (off + 2) 0 % 256 * 65536
    + data.getD (off + 3) 0 % 256 * 16777216

/-- Overwrite `buf` starting at offset `off` with `bytes` (a raw
`memcpy`-style write into the scratch buffer). -/
def listWrite (buf : List Nat) (off : Nat) (bytes : List Nat) : List Nat :=
  buf.take off ++ bytes ++ buf.drop (off + bytes.length)

/-- Modelled from the spec: the scratch buffer's type is declared in the
missing header `block_compression.h`; the spec describes it as "reused and
grown (never shrunk) across successive calls".  `bufferResize` therefore
grows the storage to the requested size (new cells hold an unspecified
value, modelled as 0) and leaves it untouched when the request is not
larger than the current storage. -/
def bufferResize (buf : List Nat) (newsize : Nat) : List Nat :=
  if buf.length < newsize then buf ++ List.replicate (newsize - buf.length) 0 else buf

/-- The external `CompressionCodec` capability.  `compress` returns the
bytes it writes into the destination (or `none` on a codec failure, the
returned `compressed_size` being the length of that list); `uncompress`
takes the compressed bytes and the expected uncompressed size and returns
the bytes it writes into the caller-allocated buffer (or `none`). -/
structure CompressionCodec where
  maxCompressedLength : Nat → Nat
  compress : List (List Nat) → Option (List Nat)
  uncompress : List Nat → Nat → Option (List Nat)

/-- State of `CompressedBlockBuilder`: codec, `compressed_size_limit_`, and the
reusable scratch buffer `buffer_` (empty at construction). -/
structure CompressedBlockBuilder where
  codec : CompressionCodec
  compressed_size_limit : Nat
  buffer : List Nat

/-- State of `CompressedBlockDecoder`: codec and `uncompressed_size_limit_`. -/
structure CompressedBlockDecoder where
  codec : CompressionCodec
  uncompressed_size_limit : Nat

/-- Computes `data_size`: the sum of the sizes of the input slices (lines 32-35). -/
def dataSizeOf (data_slices : List (List Nat)) : Nat :=
  data_slices.foldl (fun acc s => acc + s.length) 0

/-- Models `CompressedBlockBuilder::Compress(const vector<Slice>&, Slice*)`
(lines 31-58).  Returns the builder after the call (its scratch buffer may
have been resized and written), the `Status`, and the final value of
`*result` (assigned only on the success path, line 55). -/
def CompressedBlockBuilder.Compress (b : CompressedBlockBuilder)
    (data_slices : List (List Nat)) (result : List Nat) :
    CompressedBlockBuilder × Status × List Nat :=
  let data_size := dataSizeOf data_slices
  let max_compressed_size := b.codec.maxCompressedLength data_size
  if max_compressed_size > b.compressed_size_limit then
    (b, Status.invalidArgument max_compressed_size b.compressed_size_limit, result)
  else
    let buf1 := bufferResize b.buffer (kHeaderReservedLength + max_compressed_size)
    match b.codec.compress data_slices with
    | none => ({ b with buffer := buf1 }, Status.codecError, result)
    | some written =>
      let compressed_size := written.length
      let buf2 := listWrite buf1 kHeaderReservedLength written
      let buf3 := listWrite buf2 0 (encodeFixed32 compressed_size)
      let buf4 := listWrite buf3 4 (encodeFixed32 data_size)
      ({ b with buffer := buf4 }, Status.ok,
        buf4.take (compressed_size + kHeaderReservedLength))

/-- Models `CompressedBlockBuilder::Compress(const Slice&, Slice*)` (lines 25-29):
wraps the single slice in a one-element vector. -/
def CompressedBlockBuilder.CompressOne (b : CompressedBlockBuilder)
    (data : List Nat) (result : List Nat) :
    CompressedBlockBuilder × Status × List Nat :=
  b.Compress [data] result

/-- Models `CompressedBlockDecoder::Uncompress` (lines 66-102).  Returns the
`Status` and the final value of `*result` (assigned only on the success
path, line 99; on success the result views the freshly allocated buffer of
`uncompressed_size` bytes, of which the codec wrote `written` from the
start, the rest being unspecified, modelled as 0). -/
def CompressedBlockDecoder.Uncompress (d : CompressedBlockDecoder)
    (data : List Nat) (result : List Nat) : Status × List Nat :=
  if data.length < kHeaderReservedLength then
    (Status.corruption (CorruptionKind.shortData data.length kHeaderReservedLength)
      (toDebugExcerpt data 50), result)
  else
    let compressed_size := decodeFixed32 data 0
    let uncompressed_size := decodeFixed32 data 4
    if data.length ≠ kHeaderReservedLength + compressed_size then
      (Status.corruption
        (CorruptionKind.lengthMismatch compressed_size (data.length - kHeaderReservedLength))
        (toDebugExcerpt data 50), result)
    else if uncompressed_size > d.uncompressed_size_limit then
      (Status.corruption (CorruptionKind.sizeOverflow compressed_size d.uncompressed_size_limit)
        (toDebugExcerpt data 50), result)
    else
      let compressed := (data.drop kHeaderReservedLength).take compressed_size
      match d.codec.uncompress compressed uncompressed_size with
      | none => (Status.codecError, result)
      | some written =>
        (Status.ok, (written ++ List.replicate uncompressed_size 0).take uncompressed_size)


lemma length_bufferResize (buf : List Nat) (n : Nat) :
    (bufferResize buf n).length = max buf.length n := by
  unfold bufferResize; split <;> simp <;> omega

lemma length_listWrite (L bytes : List Nat) (off : Nat) (h : off ≤ L.length) :
    (listWrite L off bytes).length = max L.length (off + bytes.length) := by
  simp [listWrite]; omega

lemma frame_eq (L w : List Nat) (h : 8 ≤ L.length) (cs ds : Nat) :
    listWrite (listWrite (listWrite L 8 w) 0 (encodeFixed32 cs)) 4 (encodeFixed32 ds)
      = encodeFixed32 cs ++ encodeFixed32 ds ++ w ++ L.drop (8 + w.length) := by
  obtain ⟨a, b, c, d, e, f, g, k, rest, rfl⟩ :
      ∃ a b c d e f g k rest, L = a :: b :: c :: d :: e :: f :: g :: k :: rest := by
    match L, h with
    | a :: b :: c :: d :: e :: f :: g :: k :: rest, _ => exact ⟨a,b,c,d,e,f,g,k,rest,rfl⟩
  simp [listWrite, encodeFixed32, List.take_append_eq_append_take, List.drop_append_eq_append_drop]

lemma take_frame (e1 e2 w tail : List Nat) (h1 : e1.length = 4) (h2 : e2.length = 4) :
    (e1 ++ e2 ++ w ++ tail).take (w.length + 8) = e1 ++ e2 ++ w := by
  simp [List.take_append_eq_append_take, h1, h2, List.take_of_length_le, List.append_assoc]

lemma length_encodeFixed32 (v : Nat) : (encodeFixed32 v).length = 4 := rfl

lemma Compress_ok_eq (b : CompressedBlockBuilder) (slices : List (List Nat))
    (res written : List Nat)
    (hle : b.codec.maxCompressedLength (dataSizeOf slices) ≤ b.compressed_size_limit)
    (hc : b.codec.compress slices = some written) :
    b.Compress slices res =
      (⟨b.codec, b.compressed_size_limit,
        encodeFixed32 written.length ++ encodeFixed32 (dataSizeOf slices)
          ++ written ++ List.drop (8 + written.length) (bufferResize b.buffer
            (kHeaderReservedLength + b.codec.maxCompressedLength (dataSizeOf slices)))⟩,
       Status.ok,
       encodeFixed32 written.length ++ encodeFixed32 (dataSizeOf slices) ++ written) := by
  have h8 : 8 ≤ (bufferResize b.buffer
      (kHeaderReservedLength + b.codec.maxCompressedLength (dataSizeOf slices))).length := by
    rw [length_bufferResize]; simp [kHeaderReservedLength]
  unfold CompressedBlockBuilder.Compress
  rw [if_neg (by omega), hc]
  simp only [kHeaderReservedLength] at h8 ⊢
  rw [frame_eq _ _ h8, take_frame _ _ _ _ (length_encodeFixed32 _) (length_encodeFixed32 _)]

lemma decode_encode (v : Nat) (rest : List Nat) :
    decodeFixed32 (encodeFixed32 v ++ rest) 0 = v % 4294967296 := by
  simp [decodeFixed32, encodeFixed32, List.getD]
  omega

lemma decode_at4 (u v : Nat) (rest : List Nat) :
    decodeFixed32 (encodeFixed32 u ++ (encodeFixed32 v ++ rest)) 4 = v % 4294967296 := by
  simp [decodeFixed32, encodeFixed32, List.getD]
  omega

lemma drop8_frame (u v : Nat) (w : List Nat) :
    (encodeFixed32 u ++ (encodeFixed32 v ++ w)).drop 8 = w := by
  simp [encodeFixed32]

lemma Uncompress_ok (c : CompressionCodec) (dlimit : Nat) (w B res : List Nat) (ds : Nat)
    (hwlt : w.length < 4294967296) (hds : ds < 4294967296) (hdlim : ds ≤ dlimit)
    (hu : c.uncompress w ds = some B) :
    (⟨c, dlimit⟩ : CompressedBlockDecoder).Uncompress
        (encodeFixed32 w.length ++ encodeFixed32 ds ++ w) res =
      (Status.ok, (B ++ List.replicate ds 0).take ds) := by
  have hlen : (encodeFixed32 w.length ++ encodeFixed32 ds ++ w).length = 8 + w.length := by
    simp [encodeFixed32]; omega
  unfold CompressedBlockDecoder.Uncompress
  rw [List.append_assoc, decode_encode, decode_at4, Nat.mod_eq_of_lt hwlt,
    Nat.mod_eq_of_lt hds, ← List.append_assoc, hlen]
  rw [if_neg (by simp [kHeaderReservedLength]), if_neg (by simp [kHeaderReservedLength]),
    if_neg (not_lt.mpr hdlim)]
  rw [List.append_assoc]
  simp only [kHeaderReservedLength, drop8_frame, List.take_length, hu]

lemma dataSizeOf_eq (l : List (List Nat)) : dataSizeOf l = (l.map List.length).sum := by
  suffices h : ∀ n : Nat, l.foldl (fun acc s => acc + s.length) n = n + (l.map List.length).sum by
    simpa [dataSizeOf] using h 0
  induction l with
  | nil => simp
  | cons x xs ih => intro n; simp [ih, Nat.add_assoc]

lemma dataSizeOf_singleton (B : List Nat) : dataSizeOf [B] = B.length := by
  simp [dataSizeOf]

/-- Codec used only for concrete witnesses: treats the concatenated input
bytes themselves as the compressed form. -/
def identityCodec : CompressionCodec where
  maxCompressedLength := fun n => n
  compress := fun ss => some ss.flatten
  uncompress := fun comp _ => some comp

/-- Codec used only for concrete witnesses: always emits a fixed 6-byte
payload. -/
def sixByteCodec : CompressionCodec where
  maxCompressedLength := fun n => n
  compress := fun _ => some [1, 2, 3, 4, 5, 6]
  uncompress := fun _ _ => none

lemma identityCodec_hwell : ∀ (ss : List (List Nat)) (out : List Nat),
    identityCodec.compress ss = some out →
    out.length ≤ identityCodec.maxCompressedLength (dataSizeOf ss) := by
  intro ss out h
  simp [identityCodec] at h
  subst h
  simp [identityCodec, dataSizeOf_eq]

lemma Compress_buffer_mono (b : CompressedBlockBuilder) (slices : List (List Nat))
    (res : List Nat) :
    b.buffer.length ≤ ((b.Compress slices res).1).buffer.length := by
  by_cases h1 : b.codec.maxCompressedLength (dataSizeOf slices) > b.compressed_size_limit
  · unfold CompressedBlockBuilder.Compress
    rw [if_pos h1]
  · cases hc : b.codec.compress slices with
    | none =>
      unfold CompressedBlockBuilder.Compress
      rw [if_neg h1, hc]
      simp [length_bufferResize]
    | some w =>
      rw [Compress_ok_eq b slices res w (not_lt.mp h1) hc]
      have := length_bufferResize b.buffer
        (kHeaderReservedLength + b.codec.maxCompressedLength (dataSizeOf slices))
      simp [encodeFixed32, kHeaderReservedLength] at this ⊢
      omega

lemma Compress_fields (b : CompressedBlockBuilder) (slices : List (List Nat))
    (res : List Nat) :
    ((b.Compress slices res).1).codec = b.codec ∧
    ((b.Compress slices res).1).compressed_size_limit = b.compressed_size_limit := by
  by_cases h1 : b.codec.maxCompressedLength (dataSizeOf slices) > b.compressed_size_limit
  · unfold CompressedBlockBuilder.Compress
    rw [if_pos h1]
    exact ⟨rfl, rfl⟩
  · cases hc : b.codec.compress slices with
    | none =>
      unfold CompressedBlockBuilder.Compress
      rw [if_neg h1, hc]
      exact ⟨rfl, rfl⟩
    | some w =>
      unfold CompressedBlockBuilder.Compress
      rw [if_neg h1, hc]
      exact ⟨rfl, rfl⟩

lemma Compress_buffer_le (b : CompressedBlockBuilder) (slices : List (List Nat))
    (res : List Nat)
    (hwell : ∀ (ss : List (List Nat)) (out : List Nat), b.codec.compress ss = some out →
      out.length ≤ b.codec.maxCompressedLength (dataSizeOf ss))
    (hinv : b.buffer.length ≤ kHeaderReservedLength + b.compressed_size_limit) :
    ((b.Compress slices res).1).buffer.length ≤
      kHeaderReservedLength + b.compressed_size_limit := by
  by_cases h1 : b.codec.maxCompressedLength (dataSizeOf slices) > b.compressed_size_limit
  · unfold CompressedBlockBuilder.Compress
    rw [if_pos h1]
    exact hinv
  · cases hc : b.codec.compress slices with
    | none =>
      unfold CompressedBlockBuilder.Compress
      rw [if_neg h1, hc]
      have := length_bufferResize b.buffer
        (kHeaderReservedLength + b.codec.maxCompressedLength (dataSizeOf slices))
      simp only [kHeaderReservedLength] at this hinv ⊢
      simp [this]
      omega
    | some w =>
      rw [Compress_ok_eq b slices res w (not_lt.mp h1) hc]
      have hw := hwell slices w hc
      have := length_bufferResize b.buffer
        (kHeaderReservedLength + b.codec.maxCompressedLength (dataSizeOf slices))
      simp [encodeFixed32, kHeaderReservedLength] at this hinv ⊢
      omega

/-- Model of a sequence of `Compress` calls on the same builder, each call
taking the builder state the previous call left behind. -/
def runCompressSeq (b : CompressedBlockBuilder) (calls : List (List (List Nat))) :
    CompressedBlockBuilder :=
  calls.foldl (fun acc call => (acc.Compress call []).1) b

lemma runCompressSeq_mono (calls : List (List (List Nat))) :
    ∀ b : CompressedBlockBuilder,
      b.buffer.length ≤ (runCompressSeq b calls).buffer.length := by
  induction calls with
  | nil => intro b; exact le_refl _
  | cons call calls ih =>
    intro b
    exact le_trans (Compress_buffer_mono b call []) (ih ((b.Compress call []).1))

lemma runCompressSeq_fields (calls : List (List (List Nat))) :
    ∀ b : CompressedBlockBuilder,
      (runCompressSeq b calls).codec = b.codec ∧
      (runCompressSeq b calls).compressed_size_limit = b.compressed_size_limit := by
  induction calls with
  | nil => intro b; exact ⟨rfl, rfl⟩
  | cons call calls ih =>
    intro b
    have h := Compress_fields b call []
    have h2 := ih ((b.Compress call []).1)
    exact ⟨h2.1.trans h.1, h2.2.trans h.2⟩

lemma runCompressSeq_buffer_le (calls : List (List (List Nat))) :
    ∀ b : CompressedBlockBuilder,
      (∀ (ss : List (List Nat)) (out : List Nat), b.codec.compress ss = some out →
        out.length ≤ b.codec.maxCompressedLength (dataSizeOf ss)) →
      b.buffer.length ≤ kHeaderReservedLength + b.compressed_size_limit →
      (runCompressSeq b calls).buffer.length ≤
        kHeaderReservedLength + b.compressed_size_limit := by
  induction calls with
  | nil => intro b _ h; exact h
  | cons call calls ih =>
    intro b hwell hle
    have hf := Compress_fields b call []
    have step := Compress_buffer_le b call [] hwell hle
    rw [← hf.2] at step
    have hrec := ih ((b.Compress call []).1) (by rw [hf.1]; exact hwell) step
    rw [hf.2] at hrec
    exact hrec

/-- C2: every successful `CompressedBlockBuilder::Compress` call returns a
view of length exactly `8 + compressed_size` whose bytes 0-3 are
`compressed_size` as a little-endian u32, whose bytes 4-7 are `data_size`
as a little-endian u32, and whose bytes from 8 on are the codec payload. -/
theorem C2_header_exactness (b : CompressedBlockBuilder) (slices : List (List Nat))
    (res written : List Nat)
    (hle : b.codec.maxCompressedLength (dataSizeOf slices) ≤ b.compressed_size_limit)
    (hc : b.codec.compress slices = some written) :
    (b.Compress slices res).2.1 = Status.ok ∧
    (b.Compress slices res).2.2 =
      encodeFixed32 written.length ++ encodeFixed32 (dataSizeOf slices) ++ written ∧
    ((b.Compress slices res).2.2).length = kHeaderReservedLength + written.length := by
  rw [Compress_ok_eq b slices res written hle hc]
  refine ⟨rfl, rfl, ?_⟩
  simp [encodeFixed32, kHeaderReservedLength]
  omega

/-- Witness for C2, the spec's own example: a 10-byte input whose codec
output is 6 bytes yields header bytes [06,00,00,00,0A,00,00,00] followed
by the payload. -/
theorem C2_header_exactness_witness :
    ((⟨sixByteCodec, 100, []⟩ : CompressedBlockBuilder).Compress
        [[0, 1, 2, 3, 4, 5, 6, 7, 8, 9]] []).2.2 =
      [6, 0, 0, 0, 10, 0, 0, 0, 1, 2, 3, 4, 5, 6] := by
  have h := C2_header_exactness ⟨sixByteCodec, 100, []⟩ [[0, 1, 2, 3, 4, 5, 6, 7, 8, 9]] []
    [1, 2, 3, 4, 5, 6] (by decide) rfl
  exact h.2.1.trans (by decide)

/-- C3: an input of length at least 8 whose total length differs from
`8 + compressed_size` (first four bytes, little-endian) makes
`CompressedBlockDecoder::Uncompress` fail with a Corruption error carrying
the declared and remaining lengths; the outcome is the same for every
codec, i.e. the codec is never invoked, and the early return precedes the
output allocation. -/
theorem C3_length_mismatch (c c2 : CompressionCodec) (lim : Nat) (data res : List Nat)
    (h8 : kHeaderReservedLength ≤ data.length)
    (hmis : data.length ≠ kHeaderReservedLength + decodeFixed32 data 0) :
    (⟨c, lim⟩ : CompressedBlockDecoder).Uncompress data res =
      (Status.corruption
        (CorruptionKind.lengthMismatch (decodeFixed32 data 0)
          (data.length - kHeaderReservedLength))
        (toDebugExcerpt data 50), res) ∧
    (⟨c, lim⟩ : CompressedBlockDecoder).Uncompress data res =
      (⟨c2, lim⟩ : CompressedBlockDecoder).Uncompress data res := by
  constructor
  · unfold CompressedBlockDecoder.Uncompress
    rw [if_neg (not_lt.mpr h8), if_pos hmis]
  · unfold CompressedBlockDecoder.Uncompress
    rw [if_neg (not_lt.mpr h8), if_pos hmis, if_neg (not_lt.mpr h8), if_pos hmis]

/-- Witness for C3: a block declaring 100 payload bytes but holding 0. -/
theorem C3_length_mismatch_witness :
    (⟨identityCodec, 5⟩ : CompressedBlockDecoder).Uncompress
        [100, 0, 0, 0, 0, 0, 0, 0] [9] =
      (Status.corruption (CorruptionKind.lengthMismatch 100 0)
        [100, 0, 0, 0, 0, 0, 0, 0], [9]) :=
  (C3_length_mismatch identityCodec sixByteCodec 5 [100, 0, 0, 0, 0, 0, 0, 0] [9]
    (by decide) (by decide)).1

/-- C5: an input shorter than 8 bytes makes
`CompressedBlockDecoder::Uncompress` fail with a Corruption error that
carries the actual length, the required minimum 8, and an excerpt of at
most the first 50 bytes; no header field is decoded and the codec is not
consulted (the error is the same for every decoder). -/
theorem C5_short_buffer (d : CompressedBlockDecoder) (data res : List Nat)
    (h : data.length < kHeaderReservedLength) :
    d.Uncompress data res =
      (Status.corruption (CorruptionKind.shortData data.length kHeaderReservedLength)
        (toDebugExcerpt data 50), res) ∧
    (toDebugExcerpt data 50).length ≤ 50 := by
  constructor
  · unfold CompressedBlockDecoder.Uncompress
    rw [if_pos h]
  · simp [toDebugExcerpt]

/-- Witness for C5: a 3-byte input. -/
theorem C5_short_buffer_witness :
    (⟨identityCodec, 7⟩ : CompressedBlockDecoder).Uncompress [1, 2, 3] [9] =
      (Status.corruption (CorruptionKind.shortData 3 8) [1, 2, 3], [9]) :=
  (C5_short_buffer ⟨identityCodec, 7⟩ [1, 2, 3] [9] (by decide)).1

/-- C6: `CompressedBlockBuilder::Compress` returns InvalidArgument exactly
when `MaxCompressedLength(data_size)` exceeds `compressed_size_limit`; in
that case the error carries the estimate and the limit, and the call
returns with the builder and the result slice untouched, before the
codec's compress runs. -/
theorem C6_invalid_argument_iff (b : CompressedBlockBuilder) (slices : List (List Nat))
    (res : List Nat) :
    (∀ e l : Nat, (b.Compress slices res).2.1 = Status.invalidArgument e l ↔
      (b.compressed_size_limit < b.codec.maxCompressedLength (dataSizeOf slices) ∧
        e = b.codec.maxCompressedLength (dataSizeOf slices) ∧
        l = b.compressed_size_limit)) ∧
    (b.compressed_size_limit < b.codec.maxCompressedLength (dataSizeOf slices) →
      b.Compress slices res =
        (b, Status.invalidArgument (b.codec.maxCompressedLength (dataSizeOf slices))
          b.compressed_size_limit, res)) := by
  constructor
  · intro e l
    by_cases h1 : b.codec.maxCompressedLength (dataSizeOf slices) > b.compressed_size_limit
    · unfold CompressedBlockBuilder.Compress
      rw [if_pos h1]
      constructor
      · intro h
        injection h with h1e h2e
        exact ⟨h1, h1e.symm, h2e.symm⟩
      · intro h
        rw [h.2.1, h.2.2]
    · cases hc : b.codec.compress slices with
      | none =>
        unfold CompressedBlockBuilder.Compress
        rw [if_neg h1, hc]
        constructor
        · intro h; exact absurd h (by simp)
        · intro h; exact absurd h.1 h1
      | some w =>
        rw [Compress_ok_eq b slices res w (not_lt.mp h1) hc]
        constructor
        · intro h; exact absurd h (by simp)
        · intro h; exact absurd h.1 h1
  · intro h
    unfold CompressedBlockBuilder.Compress
    rw [if_pos h]

/-- Witness for C6: estimate 1 exceeds limit 0. -/
theorem C6_invalid_argument_witness :
    (⟨identityCodec, 0, []⟩ : CompressedBlockBuilder).Compress [[1]] [9] =
      (⟨identityCodec, 0, []⟩, Status.invalidArgument 1 0, [9]) :=
  (C6_invalid_argument_iff ⟨identityCodec, 0, []⟩ [[1]] [9]).2 (by decide)

/-- C7: both operations leave the caller's result slice untouched on every
error return: if `Compress` or `Uncompress` returns a status other than OK,
the final value of `*result` is its initial value. -/
theorem C7_error_atomicity :
    (∀ (b : CompressedBlockBuilder) (slices : List (List Nat)) (res : List Nat),
      (b.Compress slices res).2.1 ≠ Status.ok → (b.Compress slices res).2.2 = res) ∧
    (∀ (d : CompressedBlockDecoder) (data res : List Nat),
      (d.Uncompress data res).1 ≠ Status.ok → (d.Uncompress data res).2 = res) := by
  constructor
  · intro b slices res
    by_cases h1 : b.codec.maxCompressedLength (dataSizeOf slices) > b.compressed_size_limit
    · unfold CompressedBlockBuilder.Compress
      rw [if_pos h1]
      intro _; rfl
    · cases hc : b.codec.compress slices with
      | none =>
        unfold CompressedBlockBuilder.Compress
        rw [if_neg h1, hc]
        intro _; rfl
      | some w =>
        rw [Compress_ok_eq b slices res w (not_lt.mp h1) hc]
        intro h
        exact absurd rfl h
  · intro d data res
    by_cases h1 : data.length < kHeaderReservedLength
    · unfold CompressedBlockDecoder.Uncompress
      rw [if_pos h1]
      intro _; rfl
    · by_cases h2 : data.length ≠ kHeaderReservedLength + decodeFixed32 data 0
      · unfold CompressedBlockDecoder.Uncompress
        rw [if_neg h1, if_pos h2]
        intro _; rfl
      · by_cases h3 : decodeFixed32 data 4 > d.uncompressed_size_limit
        · unfold CompressedBlockDecoder.Uncompress
          rw [if_neg h1, if_neg h2, if_pos h3]
          intro _; rfl
        · cases hu : d.codec.uncompress ((data.drop kHeaderReservedLength).take
              (decodeFixed32 data 0)) (decodeFixed32 data 4) with
          | none =>
            unfold CompressedBlockDecoder.Uncompress
            rw [if_neg h1, if_neg h2, if_neg h3]
            simp only [hu]
            intro _; trivial
          | some w =>
            unfold CompressedBlockDecoder.Uncompress
            rw [if_neg h1, if_neg h2, if_neg h3]
            simp only [hu]
            intro h
            exact absurd rfl h

/-- Witness for C7: a failing `Compress` call leaves `*result` as it was. -/
theorem C7_error_atomicity_witness :
    ((⟨identityCodec, 0, []⟩ : CompressedBlockBuilder).Compress [[1]] [9]).2.2 = [9] :=
  C7_error_atomicity.1 ⟨identityCodec, 0, []⟩ [[1]] [9] (by decide)

/-- C1: for a codec whose uncompress inverts its compress and writes within
its own estimate, any byte sequence whose estimated compressed size is
within the builder limit and whose length is within the decoder limit
(representable limits, per the u32 wire format) round-trips:
`Uncompress (Compress B) = B`, including `B = []`. -/
theorem C1_round_trip (c : CompressionCodec) (climit dlimit : Nat)
    (B w buf0 res0 res1 : List Nat)
    (hcomp : c.compress [B] = some w)
    (hinv : c.uncompress w B.length = some B)
    (hwb : w.length ≤ c.maxCompressedLength B.length)
    (hest : c.maxCompressedLength B.length ≤ climit)
    (hblen : B.length ≤ dlimit)
    (hclim : climit < 4294967296) (hdlim : dlimit < 4294967296) :
    ∃ (b2 : CompressedBlockBuilder) (framed : List Nat),
      (⟨c, climit, buf0⟩ : CompressedBlockBuilder).CompressOne B res0 =
        (b2, Status.ok, framed) ∧
      (⟨c, dlimit⟩ : CompressedBlockDecoder).Uncompress framed res1 =
        (Status.ok, B) := by
  have hds : dataSizeOf [B] = B.length := dataSizeOf_singleton B
  have hle : (⟨c, climit, buf0⟩ : CompressedBlockBuilder).codec.maxCompressedLength
      (dataSizeOf [B]) ≤
      (⟨c, climit, buf0⟩ : CompressedBlockBuilder).compressed_size_limit := by
    show c.maxCompressedLength (dataSizeOf [B]) ≤ climit
    rw [hds]; exact hest
  refine ⟨_, _, Compress_ok_eq ⟨c, climit, buf0⟩ [B] res0 w hle hcomp, ?_⟩
  show (⟨c, dlimit⟩ : CompressedBlockDecoder).Uncompress
      (encodeFixed32 w.length ++ encodeFixed32 (dataSizeOf [B]) ++ w) res1 =
    (Status.ok, B)
  rw [hds, Uncompress_ok c dlimit w B res1 B.length (by omega) (by omega) hblen hinv,
    List.take_left]

/-- Witness for C1: the identity codec round-trips the bytes [3, 7]. -/
theorem C1_round_trip_witness :
    ∃ (b2 : CompressedBlockBuilder) (framed : List Nat),
      (⟨identityCodec, 100, []⟩ : CompressedBlockBuilder).CompressOne [3, 7] [9] =
        (b2, Status.ok, framed) ∧
      (⟨identityCodec, 100⟩ : CompressedBlockDecoder).Uncompress framed [8] =
        (Status.ok, [3, 7]) :=
  C1_round_trip identityCodec 100 100 [3, 7] [3, 7] [] [9] [8] rfl rfl
    (by decide) (by decide) (by decide) (by decide) (by decide)

/-- C4 (code bug): on the 9-byte block [1,0,0,0,100,0,0,0,42] with
`uncompressed_size_limit = 10` the decoder does fail with Corruption
before any allocation, but the number it formats into the message slot
that its own text labels "uncompressed size %u" is `compressed_size` (1),
not the declared uncompressed size (100). -/
theorem C4_size_limit_message_bug :
    (⟨identityCodec, 10⟩ : CompressedBlockDecoder).Uncompress
        [1, 0, 0, 0, 100, 0, 0, 0, 42] [9] =
      (Status.corruption (CorruptionKind.sizeOverflow 1 10)
        [1, 0, 0, 0, 100, 0, 0, 0, 42], [9]) ∧
    decodeFixed32 [1, 0, 0, 0, 100, 0, 0, 0, 42] 4 = 100 ∧
    decodeFixed32 [1, 0, 0, 0, 100, 0, 0, 0, 42] 0 = 1 := by
  decide

/-- C8: whenever `Uncompress` succeeds, the returned slice has length
exactly the `uncompressed_size` decoded from header bytes 4-7, and it is
built afresh from the block alone: the same value is returned whatever the
caller's result slice previously held. -/
theorem C8_output_sized_to_header (d : CompressedBlockDecoder)
    (data res out : List Nat)
    (h : d.Uncompress data res = (Status.ok, out)) :
    out.length = decodeFixed32 data 4 ∧
    ∀ res2 : List Nat, d.Uncompress data res2 = (Status.ok, out) := by
  by_cases h1 : data.length < kHeaderReservedLength
  · unfold CompressedBlockDecoder.Uncompress at h
    rw [if_pos h1] at h
    simp at h
  · by_cases h2 : data.length ≠ kHeaderReservedLength + decodeFixed32 data 0
    · unfold CompressedBlockDecoder.Uncompress at h
      rw [if_neg h1, if_pos h2] at h
      simp at h
    · by_cases h3 : decodeFixed32 data 4 > d.uncompressed_size_limit
      · unfold CompressedBlockDecoder.Uncompress at h
        rw [if_neg h1, if_neg h2, if_pos h3] at h
        simp at h
      · cases hu : d.codec.uncompress ((data.drop kHeaderReservedLength).take
            (decodeFixed32 data 0)) (decodeFixed32 data 4) with
        | none =>
          unfold CompressedBlockDecoder.Uncompress at h
          rw [if_neg h1, if_neg h2, if_neg h3] at h
          simp only [hu] at h
          simp at h
        | some w =>
          unfold CompressedBlockDecoder.Uncompress at h
          rw [if_neg h1, if_neg h2, if_neg h3] at h
          simp only [hu] at h
          have hout : out =
              (w ++ List.replicate (decodeFixed32 data 4) 0).take (decodeFixed32 data 4) := by
            have hsnd := congrArg Prod.snd h
            simpa using hsnd.symm
          constructor
          · rw [hout]
            simp only [List.length_take, List.length_append, List.length_replicate]
            omega
          · intro res2
            unfold CompressedBlockDecoder.Uncompress
            rw [if_neg h1, if_neg h2, if_neg h3]
            simp only [hu]
            rw [hout]

/-- Witness for C8: a successful decode of a 2-byte payload returns the
same 2-byte slice for any prior result value. -/
theorem C8_output_sized_witness :
    (⟨identityCodec, 100⟩ : CompressedBlockDecoder).Uncompress
        [2, 0, 0, 0, 2, 0, 0, 0, 3, 7] [5, 5] = (Status.ok, [3, 7]) :=
  (C8_output_sized_to_header ⟨identityCodec, 100⟩ [2, 0, 0, 0, 2, 0, 0, 0, 3, 7]
    [9] [3, 7] (by decide)).2 [5, 5]

lemma take_frame_self (e1 e2 w tail : List Nat) (h1 : e1.length = 4) (h2 : e2.length = 4) :
    e1 ++ e2 ++ w = (e1 ++ e2 ++ w ++ tail).take ((e1 ++ e2 ++ w).length) := by
  have hl : (e1 ++ e2 ++ w).length = w.length + 8 := by simp [h1, h2]; omega
  rw [hl, take_frame e1 e2 w tail h1 h2]

/-- C9: across any sequence of `Compress` calls on one builder the scratch
buffer only grows, and each successful call's result is a view into that
shared buffer (its prefix of the result's length), hence overwritten by
the next call. -/
theorem C9_scratch_buffer_growth :
    (∀ (b : CompressedBlockBuilder) (calls : List (List (List Nat))),
      b.buffer.length ≤ (runCompressSeq b calls).buffer.length) ∧
    (∀ (b : CompressedBlockBuilder) (slices : List (List Nat)) (res : List Nat),
      (b.Compress slices res).2.1 = Status.ok →
      (b.Compress slices res).2.2 =
        ((b.Compress slices res).1).buffer.take (((b.Compress slices res).2.2).length)) := by
  constructor
  · intro b calls
    exact runCompressSeq_mono calls b
  · intro b slices res h
    by_cases h1 : b.codec.maxCompressedLength (dataSizeOf slices) > b.compressed_size_limit
    · unfold CompressedBlockBuilder.Compress at h
      rw [if_pos h1] at h
      simp at h
    · cases hc : b.codec.compress slices with
      | none =>
        unfold CompressedBlockBuilder.Compress at h
        rw [if_neg h1] at h
        simp only [hc] at h
        simp at h
      | some w =>
        rw [Compress_ok_eq b slices res w (not_lt.mp h1) hc]
        exact take_frame_self _ _ _ _ (length_encodeFixed32 _) (length_encodeFixed32 _)

/-- Witness for C9: a successful call's result is the 10-byte prefix of
the post-call scratch buffer. -/
theorem C9_scratch_buffer_witness :
    ((⟨identityCodec, 100, []⟩ : CompressedBlockBuilder).Compress [[3, 7]] []).2.2 =
      (((⟨identityCodec, 100, []⟩ : CompressedBlockBuilder).Compress
        [[3, 7]] []).1).buffer.take 10 :=
  C9_scratch_buffer_growth.2 ⟨identityCodec, 100, []⟩ [[3, 7]] [] (by decide)

/-- C10: when the codec is invoked on a builder reached by any sequence of
calls from a fresh one, the scratch buffer resized in the same call holds
at least `8 + MaxCompressedLength(data_size)` bytes, never more than
`8 + compressed_size_limit` bytes, and (for a codec writing within its
estimate) the codec's write at offset 8 stays inside the buffer. -/
theorem C10_codec_destination_bounds (c : CompressionCodec) (lim : Nat)
    (calls : List (List (List Nat))) (slices : List (List Nat))
    (hwell : ∀ (ss : List (List Nat)) (out : List Nat),
      c.compress ss = some out → out.length ≤ c.maxCompressedLength (dataSizeOf ss))
    (hcall : c.maxCompressedLength (dataSizeOf slices) ≤ lim) :
    kHeaderReservedLength + c.maxCompressedLength (dataSizeOf slices) ≤
      (bufferResize (runCompressSeq ⟨c, lim, []⟩ calls).buffer
        (kHeaderReservedLength + c.maxCompressedLength (dataSizeOf slices))).length ∧
    (bufferResize (runCompressSeq ⟨c, lim, []⟩ calls).buffer
        (kHeaderReservedLength + c.maxCompressedLength (dataSizeOf slices))).length ≤
      kHeaderReservedLength + lim ∧
    ∀ w : List Nat, c.compress slices = some w →
      (listWrite (bufferResize (runCompressSeq ⟨c, lim, []⟩ calls).buffer
          (kHeaderReservedLength + c.maxCompressedLength (dataSizeOf slices)))
        kHeaderReservedLength w).length =
      (bufferResize (runCompressSeq ⟨c, lim, []⟩ calls).buffer
        (kHeaderReservedLength + c.maxCompressedLength (dataSizeOf slices))).length := by
  have hbuf : (runCompressSeq ⟨c, lim, []⟩ calls).buffer.length ≤
      kHeaderReservedLength + lim :=
    runCompressSeq_buffer_le calls ⟨c, lim, []⟩ hwell (by simp)
  have hres := length_bufferResize (runCompressSeq ⟨c, lim, []⟩ calls).buffer
    (kHeaderReservedLength + c.maxCompressedLength (dataSizeOf slices))
  refine ⟨?_, ?_, ?_⟩
  · rw [hres]
    exact le_max_right _ _
  · rw [hres]
    simp only [kHeaderReservedLength] at hbuf hcall ⊢
    omega
  · intro w hw
    have hwl := hwell slices w hw
    rw [length_listWrite _ _ _ (by rw [hres]; simp [kHeaderReservedLength]), hres]
    simp only [kHeaderReservedLength] at hwl hcall ⊢
    omega

/-- Witness for C10: concrete bound check after one prior call. -/
theorem C10_codec_destination_witness :
    (bufferResize (runCompressSeq ⟨identityCodec, 100, []⟩ [[[1, 2, 3]]]).buffer
        (kHeaderReservedLength + identityCodec.maxCompressedLength
          (dataSizeOf [[4, 5]]))).length ≤ kHeaderReservedLength + 100 :=
  (C10_codec_destination_bounds identityCodec 100 [[[1, 2, 3]]] [[4, 5]]
    identityCodec_hwell (by decide)).2.1

end Kudu
